import Mathlib

set_option maxHeartbeats 1000000

/-!
Verification of the pub/sub wrapper in `src/pubsub-redis-wrap.js`.

The development shallowly embeds the module's logic.  JavaScript values
that flow through `publish` are modelled by `Value`, JSON trees by
`Json`, and the runtime's `JSON.stringify` / `JSON.parse` by the
executable functions `Json.stringify` / `parseJson` (numbers are
restricted to integer numerals and string escapes to the set the
serializer emits; these restrictions do not affect any property proved
below).  The facade's operations are modelled as pure state
transformers over the list of registered `pmessage` callbacks, with
issued broker commands, log entries and the promise outcome made
explicit.
-/

/-- JSON trees.  Numbers are modelled as integers. -/
inductive Json where
  | null : Json
  | bool : Bool → Json
  | num : Int → Json
  | str : String → Json
  | arr : List Json → Json
  | obj : List (String × Json) → Json

/-! ### Model of `JSON.stringify` (the JavaScript runtime serializer) -/

/-- Character of a decimal digit `d < 10`. -/
def digitToChar (d : Nat) : Char := Char.ofNat (48 + d)

/-- Decimal digit characters of a natural number, most significant first. -/
def natChars (m : Nat) : List Char :=
  if m = 0 then ['0'] else (Nat.digits 10 m).reverse.map digitToChar

/-- Decimal rendering of an integer, as `JSON.stringify` prints it. -/
def intChars (n : Int) : List Char :=
  if n < 0 then '-' :: natChars (-n).toNat else natChars n.toNat

/-- JSON string escaping for one character (the escapes emitted by
`JSON.stringify` for the characters the model covers). -/
def escapeChar (c : Char) : List Char :=
  if c = '"' then ['\\', '"']
  else if c = '\\' then ['\\', '\\']
  else if c = '\n' then ['\\', 'n']
  else if c = '\t' then ['\\', 't']
  else if c = '\r' then ['\\', 'r']
  else [c]

/-- JSON string escaping of a character list. -/
def escapeChars : List Char → List Char
  | [] => []
  | c :: cs => escapeChar c ++ escapeChars cs

mutual

/-- Characters of the JSON serialization of a value
(model of `JSON.stringify`). -/
def stringifyChars : Json → List Char
  | .null => 'n' :: 'u' :: 'l' :: 'l' :: []
  | .bool true => 't' :: 'r' :: 'u' :: 'e' :: []
  | .bool false => 'f' :: 'a' :: 'l' :: 's' :: 'e' :: []
  | .num n => intChars n
  | .str s => '"' :: (escapeChars s.data ++ ['"'])
  | .arr [] => ['[', ']']
  | .arr (x :: xs) => '[' :: (stringifyChars x ++ elemsChars xs ++ [']'])
  | .obj [] => ['{', '}']
  | .obj (f :: fs) => '{' :: (fieldChars f ++ fieldsChars fs ++ ['}'])

/-- Serialization of the second and later array elements, each preceded
by a comma. -/
def elemsChars : List Json → List Char
  | [] => []
  | x :: xs => ',' :: (stringifyChars x ++ elemsChars xs)

/-- Serialization of a single object member, `"key":value`. -/
def fieldChars : String × Json → List Char
  | (k, v) => '"' :: (escapeChars k.data ++ ['"'] ++ (':' :: stringifyChars v))

/-- Serialization of the second and later object members, each preceded
by a comma. -/
def fieldsChars : List (String × Json) → List Char
  | [] => []
  | f :: fs => ',' :: (fieldChars f ++ fieldsChars fs)

end

/-- Model of `JSON.stringify` producing a `String`. -/
def Json.stringify (j : Json) : String := ⟨stringifyChars j⟩

/-! ### Model of `JSON.parse` (the JavaScript runtime parser) -/

/-- JSON insignificant whitespace. -/
def isWs (c : Char) : Bool := c = ' ' || c = '\n' || c = '\t' || c = '\r'

/-- Drop leading whitespace. -/
def skipWs : List Char → List Char
  | [] => []
  | c :: cs => if isWs c then skipWs cs else c :: cs

/-- Expect a fixed sequence of characters, returning the remainder. -/
def expectChars : List Char → List Char → Option (List Char)
  | [], cs => some cs
  | _ :: _, [] => none
  | e :: es, c :: cs => if c = e then expectChars es cs else none

/-- Inverse of `escapeChar` on the second character of an escape. -/
def unescapeChar (e : Char) : Option Char :=
  if e = '"' then some '"'
  else if e = '\\' then some '\\'
  else if e = '/' then some '/'
  else if e = 'n' then some '\n'
  else if e = 't' then some '\t'
  else if e = 'r' then some '\r'
  else none

/-- Parse the body of a JSON string literal (after the opening quote),
up to and including the closing quote. -/
def parseStringBody : List Char → Option (List Char × List Char)
  | [] => none
  | c :: cs =>
    if c = '"' then some ([], cs)
    else if c = '\\' then
      match cs with
      | [] => none
      | e :: cs' =>
        match unescapeChar e with
        | none => none
        | some u =>
          match parseStringBody cs' with
          | none => none
          | some (s, r) => some (u :: s, r)
    else
      match parseStringBody cs with
      | none => none
      | some (s, r) => some (c :: s, r)

/-- Split off the maximal run of leading decimal digits. -/
def takeDigits : List Char → List Char × List Char
  | [] => ([], [])
  | c :: cs =>
    if c.isDigit then
      let p := takeDigits cs
      (c :: p.1, p.2)
    else ([], c :: cs)

/-- Numeric value of a big-endian list of digit characters. -/
def digitsToNat (ds : List Char) : Nat :=
  ds.foldl (fun a c => a * 10 + (c.toNat - 48)) 0

/-- Parse an integer numeral (optional minus sign, then digits). -/
def parseNumber : List Char → Option (Int × List Char)
  | [] => none
  | c :: cs =>
    if c = '-' then
      let p := takeDigits cs
      if p.1.isEmpty then none else some (-(digitsToNat p.1 : Int), p.2)
    else
      let p := takeDigits (c :: cs)
      if p.1.isEmpty then none else some ((digitsToNat p.1 : Int), p.2)

mutual

/-- Fuel-indexed parser for one JSON value. -/
def parseValue : Nat → List Char → Option (Json × List Char)
  | 0, _ => none
  | fuel + 1, cs =>
    match skipWs cs with
    | [] => none
    | c :: rest =>
      if c = '-' ∨ c.isDigit = true then
        match parseNumber (c :: rest) with
        | some (n, r) => some (.num n, r)
        | none => none
      else if c = 'n' then
        match expectChars ['u', 'l', 'l'] rest with
        | some r => some (.null, r)
        | none => none
      else if c = 't' then
        match expectChars ['r', 'u', 'e'] rest with
        | some r => some (.bool true, r)
        | none => none
      else if c = 'f' then
        match expectChars ['a', 'l', 's', 'e'] rest with
        | some r => some (.bool false, r)
        | none => none
      else if c = '"' then
        match parseStringBody rest with
        | some (s, r) => some (.str ⟨s⟩, r)
        | none => none
      else if c = '[' then
        match parseArrayTail fuel rest with
        | some (xs, r) => some (.arr xs, r)
        | none => none
      else if c = '{' then
        match parseObjectTail fuel rest with
        | some (fs, r) => some (.obj fs, r)
        | none => none
      else none

/-- Parse the remainder of an array after `[`: either `]` or one or
more comma-separated values followed by `]`. -/
def parseArrayTail : Nat → List Char → Option (List Json × List Char)
  | 0, _ => none
  | fuel + 1, cs =>
    match skipWs cs with
    | [] => none
    | c :: rest =>
      if c = ']' then some ([], rest)
      else
        match parseValue fuel (c :: rest) with
        | some (x, r) =>
          match parseSepElems fuel r with
          | some (xs, r2) => some (x :: xs, r2)
          | none => none
        | none => none

/-- After one array element: `]` ends the array, `,` introduces the
next element. -/
def parseSepElems : Nat → List Char → Option (List Json × List Char)
  | 0, _ => none
  | fuel + 1, cs =>
    match skipWs cs with
    | [] => none
    | c :: rest =>
      if c = ']' then some ([], rest)
      else if c = ',' then
        match parseValue fuel rest with
        | some (x, r) =>
          match parseSepElems fuel r with
          | some (xs, r2) => some (x :: xs, r2)
          | none => none
        | none => none
      else none

/-- Parse the remainder of an object after `{`: either `}` or one or
more comma-separated `"key":value` members followed by `}`. -/
def parseObjectTail : Nat → List Char → Option (List (String × Json) × List Char)
  | 0, _ => none
  | fuel + 1, cs =>
    match skipWs cs with
    | [] => none
    | c :: rest =>
      if c = '}' then some ([], rest)
      else
        match parseMember fuel (c :: rest) with
        | some (f, r) =>
          match parseSepFields fuel r with
          | some (fs, r2) => some (f :: fs, r2)
          | none => none
        | none => none

/-- Parse one object member, `"key" : value`. -/
def parseMember : Nat → List Char → Option ((String × Json) × List Char)
  | 0, _ => none
  | fuel + 1, cs =>
    match skipWs cs with
    | [] => none
    | c :: rest =>
      if c = '"' then
        match parseStringBody rest with
        | some (k, r) =>
          match skipWs r with
          | [] => none
          | c2 :: r2 =>
            if c2 = ':' then
              match parseValue fuel r2 with
              | some (v, r3) => some ((⟨k⟩, v), r3)
              | none => none
            else none
        | none => none
      else none

/-- After one object member: `}` ends the object, `,` introduces the
next member. -/
def parseSepFields : Nat → List Char → Option (List (String × Json) × List Char)
  | 0, _ => none
  | fuel + 1, cs =>
    match skipWs cs with
    | [] => none
    | c :: rest =>
      if c = '}' then some ([], rest)
      else if c = ',' then
        match parseMember fuel rest with
        | some (f, r) =>
          match parseSepFields fuel r with
          | some (fs, r2) => some (f :: fs, r2)
          | none => none
        | none => none
      else none

end

/-- Model of `JSON.parse`: parses the whole string to a JSON value,
`none` when the string is not valid JSON (where `JSON.parse` throws).
The fuel `2 * length + 1` is enough for every parse that can succeed;
in particular it is proved below to suffice for every serializer
output. -/
def parseJson (s : String) : Option Json :=
  match parseValue (2 * s.data.length + 1) s.data with
  | some (v, rest) => if skipWs rest = [] then some v else none
  | none => none

/-! ### JavaScript value model and truthiness -/

/-- JavaScript values that can flow through `publish`.  Structured
values (objects and arrays) carry their JSON tree. -/
inductive Value where
  | undef : Value
  | null : Value
  | bool : Bool → Value
  | num : Int → Value
  | str : String → Value
  | arr : List Json → Value
  | obj : List (String × Json) → Value

/-- JavaScript truthiness of a `Value` (`!v` is `!truthy v`). -/
def truthy : Value → Bool
  | .undef => false
  | .null => false
  | .bool b => b
  | .num n => n ≠ 0
  | .str s => s ≠ ""
  | .arr _ => true
  | .obj _ => true

/-- JavaScript truthiness of a parsed JSON value (for the
`json && ...` test in `tryConvertToJSON`). -/
def jsonTruthy : Json → Bool
  | .null => false
  | .bool b => b
  | .num n => n ≠ 0
  | .str s => s ≠ ""
  | .arr _ => true
  | .obj _ => true

/-- `typeof json === 'object'` for a parsed JSON value: true exactly
for `null`, arrays and objects. -/
def jsonTypeofIsObject : Json → Bool
  | .null => true
  | .arr _ => true
  | .obj _ => true
  | _ => false

/-! ### The wrapper's helpers, translated from the source -/

/-- `serializeMessage` from the source:

    if (!message) { return ''; }
    if (typeof message === 'object') { return JSON.stringify(message); }
    return message;

In the second branch `message` is truthy, so of the three cases with
`typeof _ === 'object'` (`null`, arrays, objects) only arrays and
objects can reach it; the match below lists exactly those. -/
def serializeMessage (message : Value) : Value :=
  if truthy message = false then .str ""
  else
    match message with
    | .arr xs => .str (Json.stringify (.arr xs))
    | .obj fs => .str (Json.stringify (.obj fs))
    | m => m

/-- Result of the wrapper's receive-side decode attempt. -/
inductive DecodeResult where
  | decoded : Json → DecodeResult
  | raw : String → DecodeResult

/-- `tryConvertToJSON` from the source:

    try {
      const json = JSON.parse(jsonString);
      if (json && typeof json === 'object') { return json; }
    } catch (err) {}
    return jsonString;

A parse failure (`JSON.parse` throws) is the `none` case. -/
def tryConvertToJSON (jsonString : String) : DecodeResult :=
  match parseJson jsonString with
  | some json =>
    if jsonTruthy json && jsonTypeofIsObject json then .decoded json
    else .raw jsonString
  | none => .raw jsonString

/-! ### The `publish` operation -/

/-- Opaque transport-level error raised by the broker client. -/
structure RedisError where
  mk :: (msg : String)

/-- Errors a promise from the wrapper can be rejected with: a plain
`new Error(message)` or a propagated broker error. -/
inductive JsError where
  | js : String → JsError
  | redis : RedisError → JsError

/-- Settlement state of the promise returned by `publish`. -/
inductive PromiseState where
  | pending : PromiseState
  | resolved : Nat → PromiseState
  | rejected : JsError → PromiseState

/-- Commands issued to the underlying broker client. -/
inductive Command where
  | publishCmd : Value → Value → Command
  | psubscribe : List String → Command
  | punsubscribe : List String → Command

/-- A `console.error` record; `publish` logs the channel, the message
and the transport error on failure. -/
structure LogEntry where
  mk :: (channel : Value) (message : Value) (err : RedisError)

/-- Observable outcome of one `publish` call. -/
structure PublishOutcome where
  mk :: (result : PromiseState) (commands : List Command) (logs : List LogEntry)

/-- `publish` from the source, as a function of the two arguments and
of the broker's response to the issued command:

    return new Promise((resolve, reject) => {
      if (!channel || !message) {
        return reject(new Error('Must provide a channel and message data'));
      }
      return pub.publish(channel, serializeMessage(message)).catch((err) => {
        console.error(`...`, err);
        return reject(err);
      });
    });

Note that the executor never calls `resolve`: when the broker command
succeeds nothing settles the promise, so the outcome is `pending`. -/
def publishModel (channel message : Value) (brokerResult : Except RedisError Nat) :
    PublishOutcome :=
  if truthy channel = false ∨ truthy message = false then
    ⟨.rejected (.js "Must provide a channel and message data"), [], []⟩
  else
    match brokerResult with
    | .ok _ => ⟨.pending, [.publishCmd channel (serializeMessage message)], []⟩
    | .error e =>
      ⟨.rejected (.redis e), [.publishCmd channel (serializeMessage message)],
        [⟨channel, message, e⟩]⟩

/-! ### `listen`, `onMessage` and the facade's callback state -/

/-- The first argument of `listen`: an exact channel string or a
regular expression, the latter modelled by its match predicate
(`msgChannel.match(channel)` is truthy iff the predicate holds). -/
inductive Matcher where
  | exact : String → Matcher
  | regex : (String → Bool) → Matcher

/-- `channel instanceof RegExp`. -/
def Matcher.isRegExp : Matcher → Bool
  | .exact _ => false
  | .regex _ => true

/-- Truthiness of `msgChannel.match(channel)` for a `RegExp` matcher
(`false` is irrelevant for the `exact` case, which never reaches the
match call). -/
def Matcher.test : Matcher → String → Bool
  | .exact _, _ => false
  | .regex p, s => p s

/-- JavaScript strict equality `msgChannel === channel` between the
delivered channel name (a string) and the `listen` matcher: a string
is never strictly equal to a `RegExp` object. -/
def strictEqChannel (msgChannel : String) (channel : Matcher) : Bool :=
  match channel with
  | .exact s => msgChannel = s
  | .regex _ => false

/-- Observable handler invocations.  Handlers are identified by a
number; an event records the handler called and its arguments. -/
inductive Event where
  | listenCall : Nat → String → DecodeResult → Event
  | rawCall : Nat → String → String → String → Event

/-- A callback registered on the subscriber connection's `pmessage`
event; it receives the subscription pattern, the concrete channel and
the raw payload, and yields the handler invocations it performs. -/
def Callback : Type := String → String → String → List Event

/-- The `pmessage` callback that `listen(channel, handler)` registers:

    (pattern, msgChannel, message) => {
      if (channel instanceof RegExp) {
        if (msgChannel.match(channel)) {
          return handler(msgChannel, tryConvertToJSON(message));
        }
      }
      if (msgChannel === channel) {
        return handler(msgChannel, tryConvertToJSON(message));
      }
    }
-/
def listenCallback (channel : Matcher) (handler : Nat) : Callback :=
  fun _pattern msgChannel message =>
    if channel.isRegExp && channel.test msgChannel then
      [.listenCall handler msgChannel (tryConvertToJSON message)]
    else if strictEqChannel msgChannel channel then
      [.listenCall handler msgChannel (tryConvertToJSON message)]
    else []

/-- The `pmessage` callback that `onMessage(handleMessage)` registers:
the raw handler itself. -/
def rawCallback (handler : Nat) : Callback :=
  fun pattern msgChannel message => [.rawCall handler pattern msgChannel message]

/-- Local state of the facade: the accumulated list of callbacks
registered on the subscriber connection's `pmessage` event
(`EventEmitter.on` appends). -/
structure FacadeState where
  mk :: (listeners : List Callback)

/-- Delivery of one `pmessage` event: every registered callback runs,
in registration order. -/
def deliver (st : FacadeState) (pattern msgChannel message : String) : List Event :=
  (st.listeners.map fun cb => cb pattern msgChannel message).flatten

/-- The facade's public operations (the `redis` accessor returns the
publisher connection and does not touch the facade's state). -/
inductive Op where
  | subscribe : List String → Op
  | unsubscribe : List String → Op
  | publish : Value → Value → Except RedisError Nat → Op
  | listen : Matcher → Nat → Op
  | onMessage : Nat → Op

/-- Effect of one facade operation on the local state, together with
the broker commands it issues. -/
def applyOp : Op → FacadeState → FacadeState × List Command
  | .subscribe channels, st => (st, [.psubscribe channels])
  | .unsubscribe channels, st => (st, [.punsubscribe channels])
  | .publish channel message brokerResult, st =>
    (st, (publishModel channel message brokerResult).commands)
  | .listen channel handler, st =>
    (⟨st.listeners ++ [listenCallback channel handler]⟩, [])
  | .onMessage handler, st => (⟨st.listeners ++ [rawCallback handler]⟩, [])

/-! ### Basic lemmas about the serializer and the parser -/

/-- `true` when the list does not begin with a decimal digit, so that a
numeral parsed in front of it is not extended into it. -/
def noDigitStart : List Char → Bool
  | [] => true
  | c :: _ => !c.isDigit

theorem skipWs_cons_of_not_ws (c : Char) (cs : List Char) (h : isWs c = false) :
    skipWs (c :: cs) = c :: cs := by
  simp [skipWs, h]

theorem expectChars_self : ∀ es rest : List Char, expectChars es (es ++ rest) = some rest
  | [], rest => rfl
  | e :: es, rest => by simp [expectChars, expectChars_self es rest]

theorem ne_of_isDigit {c x : Char} (h : c.isDigit = true) (hx : x.isDigit = false) :
    c ≠ x := by
  intro e
  subst e
  rw [h] at hx
  exact Bool.noConfusion hx

theorem isWs_eq_false_of_isDigit {c : Char} (h : c.isDigit = true) : isWs c = false := by
  cases ht : isWs c
  · rfl
  · exfalso
    have hc : ((c = ' ' ∨ c = '\n') ∨ c = '\t') ∨ c = '\r' := by
      simpa [isWs] using ht
    rcases hc with ((rfl | rfl) | rfl) | rfl <;> simp at h

theorem digitToChar_isDigit {d : Nat} (h : d < 10) : (digitToChar d).isDigit = true := by
  interval_cases d <;> decide

theorem digitToChar_toNat {d : Nat} (h : d < 10) : (digitToChar d).toNat = 48 + d := by
  interval_cases d <;> decide

theorem natChars_ne_nil (m : Nat) : natChars m ≠ [] := by
  unfold natChars
  split
  · simp
  · simp [List.map_eq_nil_iff, List.reverse_eq_nil_iff, Nat.digits_ne_nil_iff_ne_zero, *]

theorem natChars_digits (m : Nat) : ∀ c ∈ natChars m, c.isDigit = true := by
  unfold natChars
  split
  · intro c hc
    simp at hc
    subst hc
    decide
  · intro c hc
    simp only [List.mem_map, List.mem_reverse] at hc
    obtain ⟨d, hd, rfl⟩ := hc
    exact digitToChar_isDigit (Nat.digits_lt_base (by norm_num) hd)

theorem takeDigits_append (ds rest : List Char) (hds : ∀ c ∈ ds, c.isDigit = true)
    (hrest : noDigitStart rest = true) : takeDigits (ds ++ rest) = (ds, rest) := by
  induction ds with
  | nil =>
    cases rest with
    | nil => rfl
    | cons c cs =>
      have hc : c.isDigit = false := by simpa [noDigitStart] using hrest
      simp [takeDigits, hc]
  | cons d ds ih =>
    have hd : d.isDigit = true := hds d (by simp)
    simp [takeDigits, hd, ih (fun c hc => hds c (by simp [hc]))]

theorem foldl_digits_map (L : List Nat) (hL : ∀ d ∈ L, d < 10) (acc : Nat) :
    List.foldl (fun a c => a * 10 + (c.toNat - 48)) acc (L.map digitToChar) =
      List.foldl (fun a d => a * 10 + d) acc L := by
  induction L generalizing acc with
  | nil => rfl
  | cons d L ih =>
    have hd : d < 10 := hL d (by simp)
    simp only [List.map_cons, List.foldl_cons, digitToChar_toNat hd]
    rw [show 48 + d - 48 = d by omega]
    exact ih (fun x hx => hL x (by simp [hx])) _

theorem foldl_base10 (L : List Nat) (acc : Nat) :
    List.foldl (fun a d => a * 10 + d) acc L =
      acc * 10 ^ L.length + Nat.ofDigits 10 L.reverse := by
  induction L generalizing acc with
  | nil => simp
  | cons d L ih =>
    simp only [List.foldl_cons, List.reverse_cons, List.length_cons]
    rw [ih, Nat.ofDigits_append, Nat.ofDigits_singleton]
    simp only [List.length_reverse]
    ring

theorem digitsToNat_natChars (m : Nat) : digitsToNat (natChars m) = m := by
  unfold digitsToNat natChars
  split
  · simp [*]
  · rw [foldl_digits_map _ (fun d hd =>
      Nat.digits_lt_base (by norm_num) (List.mem_reverse.mp hd))]
    rw [foldl_base10]
    simp [Nat.ofDigits_digits]

theorem natChars_cons (m : Nat) :
    ∃ c cs, natChars m = c :: cs ∧ c.isDigit = true := by
  cases h : natChars m with
  | nil => exact absurd h (natChars_ne_nil m)
  | cons c cs =>
    exact ⟨c, cs, rfl, natChars_digits m c (by rw [h]; simp)⟩

theorem natChars_isEmpty_eq_false (m : Nat) : (natChars m).isEmpty = false := by
  rw [Bool.eq_false_iff]
  intro hx
  exact natChars_ne_nil m (List.isEmpty_iff.mp hx)

theorem parseNumber_natChars (m : Nat) (rest : List Char)
    (hrest : noDigitStart rest = true) :
    parseNumber (natChars m ++ rest) = some ((m : Int), rest) := by
  obtain ⟨c, cs, hc, hcd⟩ := natChars_cons m
  have hne : c ≠ '-' := ne_of_isDigit hcd (by decide)
  have h1 : takeDigits (natChars m ++ rest) = (natChars m, rest) :=
    takeDigits_append _ _ (natChars_digits _) hrest
  rw [hc] at h1 ⊢
  rw [List.cons_append] at h1 ⊢
  rw [parseNumber.eq_def]
  simp only [hne, if_false, h1]
  simp [← List.cons_append, ← hc, natChars_isEmpty_eq_false, digitsToNat_natChars]

theorem parseNumber_intChars (n : Int) (rest : List Char)
    (hrest : noDigitStart rest = true) :
    parseNumber (intChars n ++ rest) = some (n, rest) := by
  unfold intChars
  split
  case isTrue hneg =>
    rw [List.cons_append, parseNumber.eq_def]
    simp only [if_pos rfl]
    rw [takeDigits_append _ _ (natChars_digits _) hrest]
    simp [natChars_isEmpty_eq_false, digitsToNat_natChars,
      Int.toNat_of_nonneg (show (0 : Int) ≤ -n by omega)]
  case isFalse hpos =>
    rw [parseNumber_natChars _ _ hrest, Int.toNat_of_nonneg (by omega)]

theorem parseStringBody_escape (s rest : List Char) :
    parseStringBody (escapeChars s ++ '"' :: rest) = some (s, rest) := by
  induction s with
  | nil =>
    rw [show escapeChars [] ++ '"' :: rest = '"' :: rest from rfl, parseStringBody.eq_def]
    simp
  | cons c cs ih =>
    by_cases h1 : c = '"'
    · subst h1
      rw [show escapeChars ('"' :: cs) ++ '"' :: rest =
            '\\' :: '"' :: (escapeChars cs ++ '"' :: rest) from by
          simp [escapeChars, escapeChar]]
      rw [parseStringBody.eq_def]
      simp [unescapeChar, ih]
    by_cases h2 : c = '\\'
    · subst h2
      rw [show escapeChars ('\\' :: cs) ++ '"' :: rest =
            '\\' :: '\\' :: (escapeChars cs ++ '"' :: rest) from by
          simp [escapeChars, escapeChar]]
      rw [parseStringBody.eq_def]
      simp [unescapeChar, ih]
    by_cases h3 : c = '\n'
    · subst h3
      rw [show escapeChars ('\n' :: cs) ++ '"' :: rest =
            '\\' :: 'n' :: (escapeChars cs ++ '"' :: rest) from by
          simp [escapeChars, escapeChar]]
      rw [parseStringBody.eq_def]
      simp [unescapeChar, ih]
    by_cases h4 : c = '\t'
    · subst h4
      rw [show escapeChars ('\t' :: cs) ++ '"' :: rest =
            '\\' :: 't' :: (escapeChars cs ++ '"' :: rest) from by
          simp [escapeChars, escapeChar]]
      rw [parseStringBody.eq_def]
      simp [unescapeChar, ih]
    by_cases h5 : c = '\r'
    · subst h5
      rw [show escapeChars ('\r' :: cs) ++ '"' :: rest =
            '\\' :: 'r' :: (escapeChars cs ++ '"' :: rest) from by
          simp [escapeChars, escapeChar]]
      rw [parseStringBody.eq_def]
      simp [unescapeChar, ih]
    · rw [show escapeChars (c :: cs) ++ '"' :: rest =
            c :: (escapeChars cs ++ '"' :: rest) from by
          simp [escapeChars, escapeChar, h1, h2, h3, h4, h5]]
      rw [parseStringBody.eq_def]
      simp [h1, h2, ih]

theorem stringify_length_pos (v : Json) : 1 ≤ (stringifyChars v).length := by
  cases v with
  | null => simp [stringifyChars]
  | bool b => cases b <;> simp [stringifyChars]
  | num n =>
    show 1 ≤ (intChars n).length
    unfold intChars
    split
    · simp
    · have h := List.length_pos.mpr (natChars_ne_nil n.toNat)
      omega
  | str s => simp [stringifyChars]
  | arr xs => cases xs <;> simp [stringifyChars]
  | obj fs => cases fs <;> simp [stringifyChars]

theorem stringify_cons (v : Json) :
    ∃ c cs, stringifyChars v = c :: cs ∧ isWs c = false ∧ c ≠ ']' ∧ c ≠ '}' := by
  cases v with
  | null =>
    exact ⟨'n', ['u', 'l', 'l'], by simp [stringifyChars], by decide, by decide, by decide⟩
  | bool b =>
    cases b
    · exact ⟨'f', ['a', 'l', 's', 'e'], by simp [stringifyChars],
        by decide, by decide, by decide⟩
    · exact ⟨'t', ['r', 'u', 'e'], by simp [stringifyChars],
        by decide, by decide, by decide⟩
  | num n =>
    have e : stringifyChars (Json.num n) = intChars n := by simp [stringifyChars]
    rw [e]
    unfold intChars
    split
    · exact ⟨'-', natChars (-n).toNat, rfl, by decide, by decide, by decide⟩
    · obtain ⟨c, cs, hc, hcd⟩ := natChars_cons n.toNat
      exact ⟨c, cs, hc, isWs_eq_false_of_isDigit hcd, ne_of_isDigit hcd (by decide),
        ne_of_isDigit hcd (by decide)⟩
  | str s =>
    exact ⟨'"', escapeChars s.data ++ ['"'], by simp [stringifyChars],
      by decide, by decide, by decide⟩
  | arr xs =>
    cases xs with
    | nil => exact ⟨'[', [']'], by simp [stringifyChars], by decide, by decide, by decide⟩
    | cons x xs =>
      exact ⟨'[', stringifyChars x ++ elemsChars xs ++ [']'], by simp [stringifyChars],
        by decide, by decide, by decide⟩
  | obj fs =>
    cases fs with
    | nil => exact ⟨'{', ['}'], by simp [stringifyChars], by decide, by decide, by decide⟩
    | cons f fs =>
      exact ⟨'{', fieldChars f ++ fieldsChars fs ++ ['}'], by simp [stringifyChars],
        by decide, by decide, by decide⟩

theorem noDigitStart_elems (xs : List Json) (rest : List Char) :
    noDigitStart (elemsChars xs ++ ']' :: rest) = true := by
  cases xs with
  | nil =>
    rw [show elemsChars [] = ([] : List Char) from by simp [elemsChars], List.nil_append]
    rfl
  | cons x xs =>
    rw [show elemsChars (x :: xs) = ',' :: (stringifyChars x ++ elemsChars xs) from by
      simp [elemsChars], List.cons_append]
    rfl

theorem noDigitStart_fields (fs : List (String × Json)) (rest : List Char) :
    noDigitStart (fieldsChars fs ++ '}' :: rest) = true := by
  cases fs with
  | nil =>
    rw [show fieldsChars [] = ([] : List Char) from by simp [fieldsChars], List.nil_append]
    rfl
  | cons f fs =>
    rw [show fieldsChars (f :: fs) = ',' :: (fieldChars f ++ fieldsChars fs) from by
      simp [fieldsChars], List.cons_append]
    rfl

theorem fieldChars_eq (k : String) (v : Json) :
    fieldChars (k, v) = '"' :: (escapeChars k.data ++ ['"'] ++ (':' :: stringifyChars v)) := by
  simp [fieldChars]

theorem fieldChars_length_pos (f : String × Json) : 1 ≤ (fieldChars f).length := by
  obtain ⟨k, v⟩ := f
  rw [fieldChars_eq]
  simp

theorem parseArrayTail_close (f : Nat) (rest : List Char) :
    parseArrayTail (f + 1) (']' :: rest) = some ([], rest) := by
  rw [parseArrayTail.eq_def]
  simp [skipWs, isWs]

theorem parseObjectTail_close (f : Nat) (rest : List Char) :
    parseObjectTail (f + 1) ('}' :: rest) = some ([], rest) := by
  rw [parseObjectTail.eq_def]
  simp [skipWs, isWs]

theorem parseSepElems_close (f : Nat) (rest : List Char) :
    parseSepElems (f + 1) (']' :: rest) = some ([], rest) := by
  rw [parseSepElems.eq_def]
  simp [skipWs, isWs]

theorem parseSepFields_close (f : Nat) (rest : List Char) :
    parseSepFields (f + 1) ('}' :: rest) = some ([], rest) := by
  rw [parseSepFields.eq_def]
  simp [skipWs, isWs]

/-- Master round-trip statement: with enough fuel, each parsing
function recovers exactly what the corresponding piece of the
serializer emitted, leaving the rest of the input untouched. -/
theorem parse_stringify_all (fuel : Nat) :
    (∀ (v : Json) (rest : List Char), (stringifyChars v).length ≤ fuel →
      noDigitStart rest = true →
      parseValue fuel (stringifyChars v ++ rest) = some (v, rest))
    ∧ (∀ (x : Json) (xs : List Json) (rest : List Char),
      (stringifyChars x).length + (elemsChars xs).length + 1 ≤ fuel →
      parseArrayTail fuel (stringifyChars x ++ (elemsChars xs ++ ']' :: rest)) =
        some (x :: xs, rest))
    ∧ (∀ (xs : List Json) (rest : List Char), (elemsChars xs).length + 1 ≤ fuel →
      parseSepElems fuel (elemsChars xs ++ ']' :: rest) = some (xs, rest))
    ∧ (∀ (p : String × Json) (fs : List (String × Json)) (rest : List Char),
      (fieldChars p).length + (fieldsChars fs).length + 1 ≤ fuel →
      parseObjectTail fuel (fieldChars p ++ (fieldsChars fs ++ '}' :: rest)) =
        some (p :: fs, rest))
    ∧ (∀ (p : String × Json) (rest : List Char), (fieldChars p).length ≤ fuel →
      noDigitStart rest = true →
      parseMember fuel (fieldChars p ++ rest) = some (p, rest))
    ∧ (∀ (fs : List (String × Json)) (rest : List Char),
      (fieldsChars fs).length + 1 ≤ fuel →
      parseSepFields fuel (fieldsChars fs ++ '}' :: rest) = some (fs, rest)) := by
  induction fuel with
  | zero =>
    refine ⟨?_, ?_, ?_, ?_, ?_, ?_⟩
    · intro v rest hlen _
      exact absurd (Nat.le_trans (stringify_length_pos v) hlen) (by omega)
    · intro x xs rest hlen
      exact absurd hlen (by omega)
    · intro xs rest hlen
      exact absurd hlen (by omega)
    · intro p fs rest hlen
      exact absurd hlen (by omega)
    · intro p rest hlen _
      exact absurd (Nat.le_trans (fieldChars_length_pos p) hlen) (by omega)
    · intro fs rest hlen
      exact absurd hlen (by omega)
  | succ f ih =>
    obtain ⟨ihV, ihA, ihS, ihO, ihM, ihF⟩ := ih
    refine ⟨?_, ?_, ?_, ?_, ?_, ?_⟩
    · -- parseValue
      intro v rest hlen hrest
      cases v with
      | null =>
        rw [show stringifyChars Json.null = ['n', 'u', 'l', 'l'] from by
          simp [stringifyChars], parseValue.eq_def]
        simp [skipWs, isWs, expectChars]
      | bool b =>
        cases b
        · rw [show stringifyChars (Json.bool false) = ['f', 'a', 'l', 's', 'e'] from by
            simp [stringifyChars], parseValue.eq_def]
          simp [skipWs, isWs, expectChars]
        · rw [show stringifyChars (Json.bool true) = ['t', 'r', 'u', 'e'] from by
            simp [stringifyChars], parseValue.eq_def]
          simp [skipWs, isWs, expectChars]
      | num n =>
        have e : stringifyChars (Json.num n) = intChars n := by simp [stringifyChars]
        rw [e]
        by_cases hneg : n < 0
        · have e2 : intChars n = '-' :: natChars (-n).toNat := by simp [intChars, hneg]
          rw [e2, List.cons_append, parseValue.eq_def]
          have hskip := skipWs_cons_of_not_ws '-' (natChars (-n).toNat ++ rest) (by decide)
          have hp : parseNumber ('-' :: (natChars (-n).toNat ++ rest)) = some (n, rest) := by
            have h2 := parseNumber_intChars n rest hrest
            rw [intChars, if_pos hneg, List.cons_append] at h2
            exact h2
          simp [hskip, hp]
        · have e2 : intChars n = natChars n.toNat := by simp [intChars, hneg]
          obtain ⟨c, cs, hc, hcd⟩ := natChars_cons n.toNat
          rw [e2, hc, List.cons_append, parseValue.eq_def]
          have hskip := skipWs_cons_of_not_ws c (cs ++ rest) (isWs_eq_false_of_isDigit hcd)
          have hp : parseNumber (c :: (cs ++ rest)) = some (n, rest) := by
            have h2 := parseNumber_intChars n rest hrest
            rw [intChars, if_neg hneg, hc, List.cons_append] at h2
            exact h2
          simp [hskip, hp, hcd]
      | str s =>
        rw [show stringifyChars (Json.str s) = '"' :: (escapeChars s.data ++ ['"']) from by
          simp [stringifyChars], parseValue.eq_def]
        simp only [List.cons_append, List.append_assoc, List.singleton_append,
            List.nil_append]
        rw [skipWs_cons_of_not_ws '"' (escapeChars s.data ++ '"' :: rest) (by decide)]
        simp [parseStringBody_escape]
      | arr xs =>
        cases xs with
        | nil =>
          have e : stringifyChars (Json.arr []) = ['[', ']'] := by simp [stringifyChars]
          rw [e] at hlen
          obtain ⟨f2, rfl⟩ : ∃ f2, f = f2 + 1 := ⟨f - 1, by simp at hlen; omega⟩
          rw [e, parseValue.eq_def]
          simp [skipWs, isWs, parseArrayTail_close]
        | cons x xs =>
          have e : stringifyChars (Json.arr (x :: xs)) =
              '[' :: (stringifyChars x ++ elemsChars xs ++ [']']) := by simp [stringifyChars]
          rw [e] at hlen
          simp only [List.length_cons, List.length_append] at hlen
          have hA := ihA x xs rest (by simp at hlen; omega)
          rw [e, parseValue.eq_def]
          simp only [List.cons_append, List.append_assoc, List.singleton_append,
            List.nil_append]
          rw [skipWs_cons_of_not_ws '['
            (stringifyChars x ++ (elemsChars xs ++ ']' :: rest)) (by decide)]
          simp [hA]
      | obj fs =>
        cases fs with
        | nil =>
          have e : stringifyChars (Json.obj []) = ['{', '}'] := by simp [stringifyChars]
          rw [e] at hlen
          obtain ⟨f2, rfl⟩ : ∃ f2, f = f2 + 1 := ⟨f - 1, by simp at hlen; omega⟩
          rw [e, parseValue.eq_def]
          simp [skipWs, isWs, parseObjectTail_close]
        | cons p fs =>
          have e : stringifyChars (Json.obj (p :: fs)) =
              '{' :: (fieldChars p ++ fieldsChars fs ++ ['}']) := by simp [stringifyChars]
          rw [e] at hlen
          simp only [List.length_cons, List.length_append] at hlen
          have hO := ihO p fs rest (by simp at hlen; omega)
          rw [e, parseValue.eq_def]
          simp only [List.cons_append, List.append_assoc, List.singleton_append,
            List.nil_append]
          rw [skipWs_cons_of_not_ws '{'
            (fieldChars p ++ (fieldsChars fs ++ '}' :: rest)) (by decide)]
          simp [hO]
    · -- parseArrayTail
      intro x xs rest hlen
      obtain ⟨c, cs, hc, hw, hne1, hne2⟩ := stringify_cons x
      have hlen1 := stringify_length_pos x
      have hV : parseValue f (stringifyChars x ++ (elemsChars xs ++ ']' :: rest)) =
          some (x, elemsChars xs ++ ']' :: rest) :=
        ihV x _ (by omega) (noDigitStart_elems xs rest)
      have hS : parseSepElems f (elemsChars xs ++ ']' :: rest) = some (xs, rest) :=
        ihS xs rest (by omega)
      rw [hc] at hV ⊢
      rw [List.cons_append] at hV ⊢
      rw [parseArrayTail.eq_def]
      have hskip := skipWs_cons_of_not_ws c (cs ++ (elemsChars xs ++ ']' :: rest)) hw
      simp [hskip, hne1, hV, hS]
    · -- parseSepElems
      intro xs rest hlen
      cases xs with
      | nil =>
        rw [show elemsChars ([] : List Json) = ([] : List Char) from by simp [elemsChars],
          List.nil_append]
        exact parseSepElems_close f rest
      | cons x xs =>
        have e : elemsChars (x :: xs) = ',' :: (stringifyChars x ++ elemsChars xs) := by
          simp [elemsChars]
        rw [e] at hlen
        simp only [List.length_cons, List.length_append] at hlen
        have hlen1 := stringify_length_pos x
        have hV : parseValue f (stringifyChars x ++ (elemsChars xs ++ ']' :: rest)) =
            some (x, elemsChars xs ++ ']' :: rest) :=
          ihV x _ (by omega) (noDigitStart_elems xs rest)
        have hS : parseSepElems f (elemsChars xs ++ ']' :: rest) = some (xs, rest) :=
          ihS xs rest (by omega)
        rw [e, List.cons_append, parseSepElems.eq_def]
        simp only [List.append_assoc]
        have hskip := skipWs_cons_of_not_ws ','
          (stringifyChars x ++ (elemsChars xs ++ ']' :: rest)) (by decide)
        simp [hskip, hV, hS]
    · -- parseObjectTail
      intro p fs rest hlen
      have hlenp := fieldChars_length_pos p
      have hM : parseMember f (fieldChars p ++ (fieldsChars fs ++ '}' :: rest)) =
          some (p, fieldsChars fs ++ '}' :: rest) :=
        ihM p _ (by omega) (noDigitStart_fields fs rest)
      have hF : parseSepFields f (fieldsChars fs ++ '}' :: rest) = some (fs, rest) :=
        ihF fs rest (by omega)
      obtain ⟨k, v⟩ := p
      rw [fieldChars_eq] at hM ⊢
      rw [List.cons_append] at hM ⊢
      rw [parseObjectTail.eq_def]
      simp only [List.append_assoc, List.cons_append, List.singleton_append,
        List.nil_append] at hM ⊢
      rw [skipWs_cons_of_not_ws '"'
        (escapeChars k.data ++ '"' :: ':' :: (stringifyChars v ++
          (fieldsChars fs ++ '}' :: rest))) (by decide)]
      simp [hM, hF]
    · -- parseMember
      intro p rest hlenp hrest
      obtain ⟨k, v⟩ := p
      rw [fieldChars_eq] at hlenp ⊢
      simp only [List.length_cons, List.length_append] at hlenp
      have hV : parseValue f (stringifyChars v ++ rest) = some (v, rest) :=
        ihV v rest (by simp at hlenp; omega) hrest
      have hsb := parseStringBody_escape k.data (':' :: (stringifyChars v ++ rest))
      have hskip2 := skipWs_cons_of_not_ws ':' (stringifyChars v ++ rest) (by decide)
      rw [List.cons_append, parseMember.eq_def]
      simp only [List.append_assoc, List.cons_append, List.singleton_append,
        List.nil_append]
      rw [skipWs_cons_of_not_ws '"'
        (escapeChars k.data ++ '"' :: ':' :: (stringifyChars v ++ rest)) (by decide)]
      simp [hsb, hskip2, hV]
    · -- parseSepFields
      intro fs rest hlen
      cases fs with
      | nil =>
        rw [show fieldsChars ([] : List (String × Json)) = ([] : List Char) from by
          simp [fieldsChars], List.nil_append]
        exact parseSepFields_close f rest
      | cons p fs =>
        have e : fieldsChars (p :: fs) = ',' :: (fieldChars p ++ fieldsChars fs) := by
          simp [fieldsChars]
        rw [e] at hlen
        simp only [List.length_cons, List.length_append] at hlen
        have hlenp := fieldChars_length_pos p
        have hM : parseMember f (fieldChars p ++ (fieldsChars fs ++ '}' :: rest)) =
            some (p, fieldsChars fs ++ '}' :: rest) :=
          ihM p _ (by omega) (noDigitStart_fields fs rest)
        have hF : parseSepFields f (fieldsChars fs ++ '}' :: rest) = some (fs, rest) :=
          ihF fs rest (by omega)
        rw [e, List.cons_append, parseSepFields.eq_def]
        simp only [List.append_assoc]
        have hskip := skipWs_cons_of_not_ws ','
          (fieldChars p ++ (fieldsChars fs ++ '}' :: rest)) (by decide)
        simp [hskip, hM, hF]

/-- `JSON.parse` recovers every serialized JSON value. -/
theorem parseJson_stringify (j : Json) : parseJson (Json.stringify j) = some j := by
  have h := (parse_stringify_all (2 * (stringifyChars j).length + 1)).1 j []
    (by omega) rfl
  rw [List.append_nil] at h
  unfold parseJson
  have hdata : (Json.stringify j).data = stringifyChars j := rfl
  rw [hdata, h]
  simp [skipWs]

/-! ### Auxiliary facts about the wrapper -/

theorem stringify_ne_empty (j : Json) : Json.stringify j ≠ "" := by
  obtain ⟨c, cs, hc, _, _, _⟩ := stringify_cons j
  intro h
  have : stringifyChars j = [] := congrArg String.data h
  rw [hc] at this
  exact List.noConfusion this

theorem serializeMessage_ne_empty (message : Value) (h : truthy message = true) :
    serializeMessage message ≠ Value.str "" := by
  cases message with
  | undef => simp [truthy] at h
  | null => simp [truthy] at h
  | bool b =>
    intro hx
    simp [serializeMessage, h] at hx
  | num n =>
    intro hx
    simp [serializeMessage, h] at hx
  | str s =>
    intro hx
    simp [serializeMessage, h] at hx
    have : s ≠ "" := by simpa [truthy] using h
    exact this hx
  | arr xs =>
    intro hx
    simp [serializeMessage, h] at hx
    exact stringify_ne_empty _ hx
  | obj fs =>
    intro hx
    simp [serializeMessage, h] at hx
    exact stringify_ne_empty _ hx

/-! ### The claims -/

/-- C1: the spec and the function's own documentation say that when the
broker publish command succeeds, the promise returned by `publish`
resolves with the number of receiving clients.  The code never calls
`resolve`, so on broker success the returned promise stays pending
forever; the receiver count the broker reports is discarded. -/
theorem publish_success_stays_pending (channel message : Value) (n : Nat)
    (hc : truthy channel = true) (hm : truthy message = true) :
    (publishModel channel message (Except.ok n)).result = PromiseState.pending := by
  simp [publishModel, hc, hm]

theorem publish_success_stays_pending_witness :
    truthy (Value.str "news") = true ∧ truthy (Value.str "hello") = true ∧
      (publishModel (Value.str "news") (Value.str "hello") (Except.ok 2)).result =
        PromiseState.pending :=
  ⟨rfl, rfl, publish_success_stays_pending (Value.str "news") (Value.str "hello") 2 rfl rfl⟩

/-- C2: `publish` with a missing (`undefined`) or empty channel or
message rejects with the `InvalidArgument` error
(`new Error('Must provide a channel and message data')`) and issues no
broker command. -/
theorem publish_missing_rejected (channel message : Value)
    (brokerResult : Except RedisError Nat)
    (h : channel = Value.undef ∨ channel = Value.str "" ∨
      message = Value.undef ∨ message = Value.str "") :
    (publishModel channel message brokerResult).result =
      PromiseState.rejected (JsError.js "Must provide a channel and message data")
    ∧ (publishModel channel message brokerResult).commands = [] := by
  rcases h with rfl | rfl | rfl | rfl <;> simp [publishModel, truthy]

theorem publish_missing_rejected_witness :
    ((publishModel Value.undef (Value.str "x") (Except.ok 0)).result =
        PromiseState.rejected (JsError.js "Must provide a channel and message data")
      ∧ (publishModel Value.undef (Value.str "x") (Except.ok 0)).commands = [])
    ∧ ((publishModel (Value.str "ch") (Value.str "") (Except.ok 0)).result =
        PromiseState.rejected (JsError.js "Must provide a channel and message data")
      ∧ (publishModel (Value.str "ch") (Value.str "") (Except.ok 0)).commands = []) :=
  ⟨publish_missing_rejected _ _ _ (Or.inl rfl),
    publish_missing_rejected _ _ _ (Or.inr (Or.inr (Or.inr rfl)))⟩

/-- C3: the receive-side decode never fails and obeys exactly the
claimed policy, in both directions: when the parse of the delivered
string succeeds and yields a truthy value of object type, the handler
receives that parsed value decoded; when the parse succeeds but the
value is not a (truthy) object, or the parse fails, the handler
receives the original raw string unchanged — in particular `"[1]"` is
delivered decoded, while `"123"`, `"true"`, `"null"` (whose parses
succeed but do not yield an object) and unparsable text come through
raw. -/
theorem tryConvertToJSON_policy :
    (∀ (s : String) (j : Json), parseJson s = some j →
      jsonTruthy j = true → jsonTypeofIsObject j = true →
      tryConvertToJSON s = DecodeResult.decoded j)
    ∧ (∀ (s : String) (j : Json), parseJson s = some j →
      (jsonTruthy j && jsonTypeofIsObject j) = false →
      tryConvertToJSON s = DecodeResult.raw s)
    ∧ (∀ s : String, parseJson s = none → tryConvertToJSON s = DecodeResult.raw s)
    ∧ tryConvertToJSON "[1]" = DecodeResult.decoded (Json.arr [Json.num 1])
    ∧ tryConvertToJSON "123" = DecodeResult.raw "123"
    ∧ tryConvertToJSON "true" = DecodeResult.raw "true"
    ∧ tryConvertToJSON "null" = DecodeResult.raw "null"
    ∧ tryConvertToJSON "not json" = DecodeResult.raw "not json" := by
  refine ⟨?_, ?_, ?_, rfl, rfl, rfl, rfl, rfl⟩
  · intro s j hp ht ho
    unfold tryConvertToJSON
    rw [hp]
    simp [ht, ho]
  · intro s j hp hb
    unfold tryConvertToJSON
    rw [hp]
    simp [hb]
  · intro s hp
    unfold tryConvertToJSON
    rw [hp]

theorem tryConvertToJSON_policy_witness :
    (parseJson "[1]" = some (Json.arr [Json.num 1])
      ∧ tryConvertToJSON "[1]" = DecodeResult.decoded (Json.arr [Json.num 1]))
    ∧ (parseJson "123" = some (Json.num 123)
      ∧ tryConvertToJSON "123" = DecodeResult.raw "123")
    ∧ (parseJson "not json" = none
      ∧ tryConvertToJSON "not json" = DecodeResult.raw "not json") :=
  ⟨⟨rfl, tryConvertToJSON_policy.1 "[1]" (Json.arr [Json.num 1]) rfl rfl rfl⟩,
    ⟨rfl, tryConvertToJSON_policy.2.1 "123" (Json.num 123) rfl rfl⟩,
    ⟨rfl, tryConvertToJSON_policy.2.2.1 "not json" rfl⟩⟩

/-- C4: round-trip — serializing a structured value (a JavaScript
object or array) for publication yields a string that the receive-side
decode parses back to the structurally equal value, delivered as the
decoded object and not as the raw string. -/
theorem serialize_then_decode_roundtrip :
    (∀ fs : List (String × Json), ∃ s : String,
      serializeMessage (Value.obj fs) = Value.str s ∧
        tryConvertToJSON s = DecodeResult.decoded (Json.obj fs))
    ∧ (∀ xs : List Json, ∃ s : String,
      serializeMessage (Value.arr xs) = Value.str s ∧
        tryConvertToJSON s = DecodeResult.decoded (Json.arr xs)) := by
  constructor
  · intro fs
    refine ⟨Json.stringify (Json.obj fs), by simp [serializeMessage, truthy], ?_⟩
    unfold tryConvertToJSON
    rw [parseJson_stringify]
    simp [jsonTruthy, jsonTypeofIsObject]
  · intro xs
    refine ⟨Json.stringify (Json.arr xs), by simp [serializeMessage, truthy], ?_⟩
    unfold tryConvertToJSON
    rw [parseJson_stringify]
    simp [jsonTruthy, jsonTypeofIsObject]

/-- C5: a handler registered through `listen` fires exactly when the
delivered channel name satisfies the matcher — equality with the
matcher when it is a string, a successful match when it is a regular
expression — and the decision depends only on the delivered channel
name, never on the subscription pattern (which is quantified over and
absent from the result). -/
theorem listen_matcher_dispatch :
    (∀ (s : String) (handler : Nat) (pattern msgChannel message : String),
      listenCallback (Matcher.exact s) handler pattern msgChannel message =
        if msgChannel = s then
          [Event.listenCall handler msgChannel (tryConvertToJSON message)]
        else [])
    ∧ (∀ (p : String → Bool) (handler : Nat) (pattern msgChannel message : String),
      listenCallback (Matcher.regex p) handler pattern msgChannel message =
        if p msgChannel then
          [Event.listenCall handler msgChannel (tryConvertToJSON message)]
        else []) := by
  constructor
  · intro s handler pattern msgChannel message
    by_cases h : msgChannel = s <;>
      simp [listenCallback, Matcher.isRegExp, Matcher.test, strictEqChannel, h]
  · intro p handler pattern msgChannel message
    by_cases h : p msgChannel <;>
      simp [listenCallback, Matcher.isRegExp, Matcher.test, strictEqChannel, h]

/-- C6: registrations are strictly additive and nothing is ever
removed or replaced: `listen` appends exactly its new matcher-wrapping
callback and `onMessage` appends exactly its new raw callback to the
end of the registered list, every other facade operation leaves the
list exactly unchanged, the callback added by `onMessage` fires on
every subsequent delivery, and two `listen` registrations with the
same matcher are independent — a single matching delivery invokes both
handlers, in registration order, after whatever the previously
registered callbacks produce. -/
theorem listeners_additive_and_both_fire :
    (∀ (channels : List String) (st : FacadeState),
      ((applyOp (Op.subscribe channels) st).1).listeners = st.listeners)
    ∧ (∀ (channels : List String) (st : FacadeState),
      ((applyOp (Op.unsubscribe channels) st).1).listeners = st.listeners)
    ∧ (∀ (channel message : Value) (brokerResult : Except RedisError Nat)
        (st : FacadeState),
      ((applyOp (Op.publish channel message brokerResult) st).1).listeners =
        st.listeners)
    ∧ (∀ (channel : Matcher) (handler : Nat) (st : FacadeState),
      ((applyOp (Op.listen channel handler) st).1).listeners =
        st.listeners ++ [listenCallback channel handler])
    ∧ (∀ (handler : Nat) (st : FacadeState),
      ((applyOp (Op.onMessage handler) st).1).listeners =
        st.listeners ++ [rawCallback handler])
    ∧ (∀ (handler : Nat) (st : FacadeState) (pattern msgChannel message : String),
      deliver ((applyOp (Op.onMessage handler) st).1) pattern msgChannel message =
        deliver st pattern msgChannel message ++
          [Event.rawCall handler pattern msgChannel message])
    ∧ (∀ (s : String) (h1 h2 : Nat) (st : FacadeState) (pattern message : String),
      deliver ((applyOp (Op.listen (Matcher.exact s) h2)
          ((applyOp (Op.listen (Matcher.exact s) h1) st).1)).1) pattern s message =
        deliver st pattern s message ++
          [Event.listenCall h1 s (tryConvertToJSON message),
            Event.listenCall h2 s (tryConvertToJSON message)]) := by
  refine ⟨?_, ?_, ?_, ?_, ?_, ?_, ?_⟩
  · intro channels st
    simp [applyOp]
  · intro channels st
    simp [applyOp]
  · intro channel message brokerResult st
    simp [applyOp]
  · intro channel handler st
    simp [applyOp]
  · intro handler st
    simp [applyOp]
  · intro handler st pattern msgChannel message
    simp [applyOp, deliver, rawCallback]
  · intro s h1 h2 st pattern message
    simp [applyOp, deliver, listenCallback, Matcher.isRegExp, Matcher.test, strictEqChannel]

/-- C7: with a non-empty channel and message, `publish` issues exactly
one broker publish command, addressed verbatim to the given channel,
whose body is the JSON serialization of the message when the message
is an object (or array) and the message itself otherwise. -/
theorem publish_single_command (channel message : Value)
    (brokerResult : Except RedisError Nat)
    (hc : truthy channel = true) (hm : truthy message = true) :
    (publishModel channel message brokerResult).commands =
      [Command.publishCmd channel (serializeMessage message)]
    ∧ (∀ fs, message = Value.obj fs →
        serializeMessage message = Value.str (Json.stringify (Json.obj fs)))
    ∧ (∀ xs, message = Value.arr xs →
        serializeMessage message = Value.str (Json.stringify (Json.arr xs)))
    ∧ (∀ b, message = Value.bool b → serializeMessage message = message)
    ∧ (∀ i, message = Value.num i → serializeMessage message = message)
    ∧ (∀ s, message = Value.str s → serializeMessage message = message) := by
  refine ⟨by cases brokerResult <;> simp [publishModel, hc, hm], ?_, ?_, ?_, ?_, ?_⟩
  · intro fs hfs
    subst hfs
    simp [serializeMessage, truthy]
  · intro xs hxs
    subst hxs
    simp [serializeMessage, truthy]
  · intro b hb
    subst hb
    simp [serializeMessage, hm]
  · intro i hi
    subst hi
    simp [serializeMessage, hm]
  · intro s hs
    subst hs
    simp [serializeMessage, hm]

theorem publish_single_command_witness :
    truthy (Value.str "orders") = true ∧ truthy (Value.str "hi") = true ∧
      (publishModel (Value.str "orders") (Value.str "hi") (Except.ok 1)).commands =
        [Command.publishCmd (Value.str "orders") (Value.str "hi")] :=
  ⟨rfl, rfl, (publish_single_command (Value.str "orders") (Value.str "hi")
    (Except.ok 1) rfl rfl).1⟩

/-- C8: with a non-empty channel and message, when the broker publish
command fails with a transport error, `publish` logs the channel, the
message and that error, and rejects the returned promise with the same
error. -/
theorem publish_transport_failure (channel message : Value) (e : RedisError)
    (hc : truthy channel = true) (hm : truthy message = true) :
    (publishModel channel message (Except.error e)).result =
      PromiseState.rejected (JsError.redis e)
    ∧ (publishModel channel message (Except.error e)).logs = [⟨channel, message, e⟩] := by
  simp [publishModel, hc, hm]

theorem publish_transport_failure_witness :
    truthy (Value.str "c") = true ∧ truthy (Value.str "m") = true ∧
      (publishModel (Value.str "c") (Value.str "m")
          (Except.error ⟨"ECONNREFUSED"⟩)).result =
        PromiseState.rejected (JsError.redis ⟨"ECONNREFUSED"⟩) :=
  ⟨rfl, rfl, (publish_transport_failure (Value.str "c") (Value.str "m")
    ⟨"ECONNREFUSED"⟩ rfl rfl).1⟩

/-- C9: the validation in `publish` is JavaScript falsiness, not just
presence: every falsy channel or message — including the number `0`
and the boolean `false`, which are legitimate JSON payloads — is
rejected with the `InvalidArgument` error and no broker command is
issued. -/
theorem publish_falsy_rejected (channel message : Value)
    (brokerResult : Except RedisError Nat)
    (h : truthy channel = false ∨ truthy message = false) :
    (publishModel channel message brokerResult).result =
      PromiseState.rejected (JsError.js "Must provide a channel and message data")
    ∧ (publishModel channel message brokerResult).commands = [] := by
  rcases h with h | h <;> simp [publishModel, h]

theorem publish_falsy_rejected_witness :
    ((publishModel (Value.str "ch") (Value.num 0) (Except.ok 1)).result =
        PromiseState.rejected (JsError.js "Must provide a channel and message data")
      ∧ (publishModel (Value.str "ch") (Value.num 0) (Except.ok 1)).commands = [])
    ∧ ((publishModel (Value.str "ch") (Value.bool false) (Except.ok 1)).result =
        PromiseState.rejected (JsError.js "Must provide a channel and message data")
      ∧ (publishModel (Value.str "ch") (Value.bool false) (Except.ok 1)).commands = []) :=
  ⟨publish_falsy_rejected _ _ _ (Or.inr (by decide)),
    publish_falsy_rejected _ _ _ (Or.inr rfl)⟩

/-- C10: the empty-string fallback branch of `serializeMessage` is
unreachable through `publish`: whenever `publish` issues a broker
command at all, the message was truthy, the single command's body is
`serializeMessage message`, and that body is never the empty string —
so the empty-versus-null serialization choice is unobservable via
`publish`. -/
theorem publish_no_empty_fallback (channel message : Value)
    (brokerResult : Except RedisError Nat)
    (h : (publishModel channel message brokerResult).commands ≠ []) :
    truthy message = true
    ∧ (publishModel channel message brokerResult).commands =
        [Command.publishCmd channel (serializeMessage message)]
    ∧ serializeMessage message ≠ Value.str "" := by
  by_cases hc : truthy channel = false ∨ truthy message = false
  · exact absurd (by simp [publishModel, hc]) h
  · have hm : truthy message = true := by
      cases hx : truthy message
      · exact absurd (Or.inr hx) hc
      · rfl
    have hcc : truthy channel = true := by
      cases hx : truthy channel
      · exact absurd (Or.inl hx) hc
      · rfl
    refine ⟨hm, ?_, serializeMessage_ne_empty message hm⟩
    cases brokerResult <;> simp [publishModel, hcc, hm]

theorem publish_no_empty_fallback_witness :
    (publishModel (Value.str "c") (Value.str "m") (Except.ok 1)).commands ≠ []
    ∧ truthy (Value.str "m") = true
    ∧ serializeMessage (Value.str "m") ≠ Value.str "" := by
  have h : (publishModel (Value.str "c") (Value.str "m") (Except.ok 1)).commands ≠ [] := by
    simp [publishModel, truthy, serializeMessage]
  exact ⟨h, (publish_no_empty_fallback _ _ _ h).1, (publish_no_empty_fallback _ _ _ h).2.2⟩
